import Mathlib

/-!
Shallow embedding of the concurrent station-retrieval core of
`get_AWDB_stations_3.py` (PSU-CSAR/awdb-retrieve): the chunking helper
`grouper`, the record validator `validate_station_data`, the fetch worker
`get_multiple_stations_thread`, the launch loop of `get_stations`, and the
queue-draining consumer loop of `get_network_stations`.

Python dictionaries are modelled as association lists (`Record`), the
multiprocessing queue as a list of `QueueItem`s in emission order, remote
SOAP calls as explicit function parameters, and raised exceptions as
`Option`/error results.
-/

namespace AWDB

/-- A value stored in a station record.  The validator never inspects a
value beyond key presence, so a small universe with an explicit `null`
(Python `None`) plus string and integer payloads suffices. -/
inductive FieldValue where
  | null
  | str (s : String)
  | num (n : Int)
deriving DecidableEq, Repr

/-- A raw or validated station record: a Python dict as an association
list from field names to values (insertion order, unique keys). -/
abbrev Record := List (String × FieldValue)

/-- Dictionary lookup: `station[k]` returns the value stored at key `k`,
`none` modelling a `KeyError`. -/
def dictGet : Record → String → Option FieldValue
  | [], _ => none
  | (k, v) :: r, f => if k = f then some v else dictGet r f

/-- The names in `REQUIRED_FIELDS` of the source: fields the validator
demands (geometry fields). -/
def REQUIRED_FIELDS : List String := ["elevation", "latitude", "longitude"]

/-- The names in `FIELDS` of the source: the full output schema whose
missing entries the validator fills with `None`. -/
def FIELDS : List String :=
  ["actonId", "beginDate", "countyName", "endDate", "fipsCountryCd",
   "fipsCountyCd", "fipsStateNumber", "huc", "name", "shefId",
   "stationDataTimeZone", "stationTimeZone", "stationTriplet",
   "elevation", "latitude", "longitude"]

/-- The second loop of `validate_station_data`: for each field name in
order, if the key is absent (`KeyError`) set it to `None`.  Setting an
absent key on a Python dict appends it in insertion order. -/
def fillFields : List String → Record → Record
  | [], r => r
  | f :: fs, r =>
      fillFields fs (if (dictGet r f).isSome then r else r ++ [(f, FieldValue.null)])

/-- Embeds `validate_station_data`: return `none` (Python `False`) if any
key of `REQUIRED_FIELDS` is absent, otherwise fill every absent key of
`FIELDS` with `None` and return the completed record. -/
def validate_station_data (station : Record) : Option Record :=
  if REQUIRED_FIELDS.all (fun f => (dictGet station f).isSome)
  then some (fillFields FIELDS station)
  else none

/-- The state of the CALLER's dict after `validate_station_data(station)`
returns: the function fills the missing optional keys in place on its
argument, so on acceptance the caller's dict is the schema-completed
record (the return value aliases it); on rejection the argument has not
been touched (the function returns before any assignment). -/
def validateFinalState (station : Record) : Record :=
  if REQUIRED_FIELDS.all (fun f => (dictGet station f).isSome)
  then fillFields FIELDS station
  else station

-- Basic dictionary lemmas

theorem dictGet_append_of_some (r l : Record) (f : String) (v : FieldValue)
    (h : dictGet r f = some v) : dictGet (r ++ l) f = some v := by
  induction r with
  | nil => simp [dictGet] at h
  | cons p r ih =>
      obtain ⟨k, w⟩ := p
      by_cases hk : k = f
      · subst hk
        simp only [dictGet, if_pos rfl] at h
        simp only [List.cons_append, dictGet, if_pos rfl]
        exact h
      · simp only [dictGet, hk, if_false] at h
        simp only [List.cons_append, dictGet, hk, if_false]
        exact ih h

theorem dictGet_append_of_none (r l : Record) (f : String)
    (h : dictGet r f = none) : dictGet (r ++ l) f = dictGet l f := by
  induction r with
  | nil => rfl
  | cons p r ih =>
      obtain ⟨k, w⟩ := p
      by_cases hk : k = f
      · simp [dictGet, hk] at h
      · simp only [dictGet, hk, if_false] at h
        simp only [List.cons_append, dictGet, hk, if_false]
        exact ih h

theorem dictGet_fillFields_of_some (fs : List String) (r : Record) (f : String)
    (v : FieldValue) (h : dictGet r f = some v) :
    dictGet (fillFields fs r) f = some v := by
  induction fs generalizing r with
  | nil => exact h
  | cons g gs ih =>
      simp only [fillFields]
      by_cases hg : (dictGet r g).isSome
      · simp only [hg, if_true]
        exact ih r h
      · simp only [hg, if_false]
        exact ih _ (dictGet_append_of_some r _ f v h)

theorem dictGet_fillFields_mem (fs : List String) (r : Record) (f : String)
    (hf : f ∈ fs) : (dictGet (fillFields fs r) f).isSome := by
  induction fs generalizing r with
  | nil => cases hf
  | cons g gs ih =>
      simp only [fillFields]
      by_cases hgf : f = g
      · subst hgf
        cases hr : dictGet r f with
        | some v =>
            simp only [hr, Option.isSome_some, if_true]
            rw [dictGet_fillFields_of_some gs r f v hr]
            rfl
        | none =>
            simp only [hr, Option.isSome_none, Bool.false_eq_true, if_false]
            have hsome : dictGet (r ++ [(f, FieldValue.null)]) f = some FieldValue.null := by
              rw [dictGet_append_of_none r _ f hr]
              simp [dictGet]
            rw [dictGet_fillFields_of_some gs _ f FieldValue.null hsome]
            rfl
      · have hf' : f ∈ gs := List.mem_of_ne_of_mem hgf hf
        by_cases hg : (dictGet r g).isSome
        · simp only [hg, if_true]
          exact ih _ hf'
        · simp only [hg, if_false]
          exact ih _ hf'

theorem dictGet_fillFields_absent (fs : List String) (r : Record) (f : String)
    (hf : f ∈ fs) (habs : dictGet r f = none) :
    dictGet (fillFields fs r) f = some FieldValue.null := by
  induction fs generalizing r with
  | nil => cases hf
  | cons g gs ih =>
      simp only [fillFields]
      by_cases hgf : f = g
      · subst hgf
        simp only [habs, Option.isSome_none, Bool.false_eq_true, if_false]
        have hsome : dictGet (r ++ [(f, FieldValue.null)]) f = some FieldValue.null := by
          rw [dictGet_append_of_none r _ f habs]
          simp [dictGet]
        exact dictGet_fillFields_of_some gs _ f FieldValue.null hsome
      · have hf' : f ∈ gs := List.mem_of_ne_of_mem hgf hf
        by_cases hg : (dictGet r g).isSome
        · simp only [hg, if_true]
          exact ih _ hf' habs
        · have hgF : (dictGet r g).isSome = false := by
            rwa [Bool.not_eq_true] at hg
          simp only [hgF, Bool.false_eq_true, if_false]
          apply ih _ hf'
          rw [dictGet_append_of_none r _ f habs]
          have hne : ¬g = f := fun h => hgf h.symm
          simp [dictGet, hne]

/-- C5 — Validator totality: a raw record holding all three required
fields is accepted (not rejected), every field of the known schema is
present in the result, each schema field absent from the raw input is
filled with the null sentinel, and fields already present keep their
value: the validated record is schema-complete. -/
theorem validator_totality (station : Record)
    (hreq : ∀ f ∈ REQUIRED_FIELDS, (dictGet station f).isSome) :
    ∃ v, validate_station_data station = some v ∧
      (∀ f ∈ FIELDS, (dictGet v f).isSome) ∧
      (∀ f ∈ FIELDS, dictGet station f = none → dictGet v f = some FieldValue.null) ∧
      (∀ f x, dictGet station f = some x → dictGet v f = some x) := by
  have hall : REQUIRED_FIELDS.all (fun f => (dictGet station f).isSome) = true := by
    rw [List.all_eq_true]
    exact fun f hf => hreq f hf
  refine ⟨fillFields FIELDS station, ?_, ?_, ?_, ?_⟩
  · simp [validate_station_data, hall]
  · exact fun f hf => dictGet_fillFields_mem FIELDS station f hf
  · exact fun f hf habs => dictGet_fillFields_absent FIELDS station f hf habs
  · exact fun f x hx => dictGet_fillFields_of_some FIELDS station f x hx

/-- Witness for C5 at a concrete raw record that has the three required
fields and is missing the optional fields. -/
theorem validator_totality_witness :
    (∀ f ∈ REQUIRED_FIELDS,
        (dictGet [("elevation", FieldValue.num 100), ("latitude", FieldValue.num 45),
                  ("longitude", FieldValue.num (-120))] f).isSome) ∧
    ∃ v, validate_station_data
        [("elevation", FieldValue.num 100), ("latitude", FieldValue.num 45),
         ("longitude", FieldValue.num (-120))] = some v ∧
      (∀ f ∈ FIELDS, (dictGet v f).isSome) ∧
      (∀ f ∈ FIELDS,
        dictGet [("elevation", FieldValue.num 100), ("latitude", FieldValue.num 45),
                 ("longitude", FieldValue.num (-120))] f = none →
          dictGet v f = some FieldValue.null) ∧
      (∀ f x,
        dictGet [("elevation", FieldValue.num 100), ("latitude", FieldValue.num 45),
                 ("longitude", FieldValue.num (-120))] f = some x →
          dictGet v f = some x) :=
  ⟨by decide, validator_totality _ (by decide)⟩

/-- C6 — Validator rejection: a raw record missing any one of the
required fields is rejected (the validator returns the failure value),
no matter which optional fields are present. -/
theorem validator_rejection (station : Record)
    (h : ∃ f ∈ REQUIRED_FIELDS, dictGet station f = none) :
    validate_station_data station = none := by
  obtain ⟨f, hf, habs⟩ := h
  unfold validate_station_data
  have : REQUIRED_FIELDS.all (fun f => (dictGet station f).isSome) = false := by
    rw [List.all_eq_false]
    exact ⟨f, hf, by simp [habs]⟩
  simp [this]

/-- Witness for C6 at a concrete record lacking the longitude field but
carrying many optional fields. -/
theorem validator_rejection_witness :
    (∃ f ∈ REQUIRED_FIELDS,
        dictGet [("elevation", FieldValue.num 100), ("latitude", FieldValue.num 45),
                 ("name", FieldValue.str "Station"), ("huc", FieldValue.str "17"),
                 ("stationTriplet", FieldValue.str "301:OR:SNTL")] f = none) ∧
    validate_station_data
        [("elevation", FieldValue.num 100), ("latitude", FieldValue.num 45),
         ("name", FieldValue.str "Station"), ("huc", FieldValue.str "17"),
         ("stationTriplet", FieldValue.str "301:OR:SNTL")] = none :=
  ⟨by decide, validator_rejection _ (by decide)⟩

/-- C8 counterexample — the validator is NOT pure in the claimed sense:
on this record (all required fields present, the optional fields absent)
the caller's dict after the call differs from the input, because the
validator fills the missing keys in place on its argument. -/
theorem validator_mutates_input :
    validateFinalState
        [("elevation", FieldValue.num 100), ("latitude", FieldValue.num 45),
         ("longitude", FieldValue.num (-120))] ≠
      [("elevation", FieldValue.num 100), ("latitude", FieldValue.num 45),
       ("longitude", FieldValue.num (-120))] := by
  decide

/-- C8 amended — the validator is deterministic but mutates its argument
in place: when it accepts, the record it returns is exactly the caller's
dict in its post-call state (the result aliases the schema-completed
input); the input is left unchanged precisely when the record is
rejected. -/
theorem validator_aliasing (station : Record) :
    (∀ v, validate_station_data station = some v → validateFinalState station = v) ∧
    (validate_station_data station = none → validateFinalState station = station) := by
  constructor
  · intro v hv
    unfold validate_station_data at hv
    unfold validateFinalState
    by_cases h : REQUIRED_FIELDS.all (fun f => (dictGet station f).isSome)
    · simp only [h, if_true] at hv ⊢
      exact Option.some.inj hv
    · simp [h] at hv
  · intro hv
    unfold validate_station_data at hv
    unfold validateFinalState
    by_cases h : REQUIRED_FIELDS.all (fun f => (dictGet station f).isSome)
    · simp [h] at hv
    · simp [h]

/-- Witness for C8's amended theorem at a concrete accepted record. -/
theorem validator_aliasing_witness :
    validateFinalState [("elevation", FieldValue.num 1), ("latitude", FieldValue.num 2),
                        ("longitude", FieldValue.num 3)] =
      fillFields FIELDS [("elevation", FieldValue.num 1), ("latitude", FieldValue.num 2),
                         ("longitude", FieldValue.num 3)] :=
  (validator_aliasing _).1 _ (by decide)

/-!
Chunking.  `grouper(iterable, n, fillvalue=None)` builds
`zip_longest(*([iter(iterable)] * n), fillvalue=None)`: successive pieces
of `n` items, the last one padded with `None`, and then strips the `None`
padding from the last piece (the fillvalue used by both call sites is the
default `None`).  `Option α` models a slot that may hold the fill value.
-/

/-- The list produced by `zip_longest` over `n` copies of one shared
iterator of `l`, with `fillvalue=None`: pieces of `n` consecutive items,
the last padded with `none` up to length `n`.  With `n = 0` Python's
`zip_longest()` (no iterators at all) yields nothing. -/
def zipLongestChunks : List α → Nat → List (List (Option α))
  | [], _ => []
  | _ :: _, 0 => []
  | a :: l', n + 1 =>
      (((a :: l').take (n + 1)).map some ++
        List.replicate ((n + 1) - (a :: l').length) none)
        :: zipLongestChunks ((a :: l').drop (n + 1)) (n + 1)
termination_by l _ => l.length
decreasing_by
  simp only [List.length_drop, List.length_cons]
  omega

/-- Embeds `grouper`: compute the `zip_longest` pieces, then replace the
last piece (`pieces[len(pieces)-1]`) by itself with the `None` fill
values removed.  On an empty pieces list the subscript raises
`IndexError`, modelled as `none`. -/
def grouper (l : List α) (n : Nat) : Option (List (List (Option α))) :=
  match zipLongestChunks l n with
  | [] => none
  | p :: ps =>
      some ((p :: ps).dropLast ++ [((p :: ps).getLastD []).filter fun x => x.isSome])

theorem filter_isSome_map_some (l : List α) :
    (l.map some).filter (fun x => x.isSome) = l.map some := by
  induction l with
  | nil => rfl
  | cons a l ih => simp [List.filter, ih]

theorem filter_isSome_replicate_none (k : Nat) :
    (List.replicate k (none : Option α)).filter (fun x => x.isSome) = [] := by
  induction k with
  | zero => rfl
  | succ k ih => simp [List.replicate, List.filter, ih]

theorem zipLongestChunks_of_le (l : List α) (n : Nat) (hl : l ≠ [])
    (hn : 1 ≤ n) (hle : l.length ≤ n) :
    zipLongestChunks l n = [l.map some ++ List.replicate (n - l.length) none] := by
  obtain ⟨a, l', rfl⟩ := List.exists_cons_of_ne_nil hl
  obtain ⟨m, rfl⟩ := Nat.exists_eq_succ_of_ne_zero (Nat.one_le_iff_ne_zero.mp hn)
  simp only [zipLongestChunks]
  rw [List.take_of_length_le hle, List.drop_eq_nil_of_le hle]
  simp only [zipLongestChunks]

theorem zipLongestChunks_of_gt (l : List α) (n : Nat) (hn : 1 ≤ n)
    (hgt : n < l.length) :
    zipLongestChunks l n =
      ((l.take n).map some) :: zipLongestChunks (l.drop n) n := by
  obtain ⟨a, l', rfl⟩ := List.exists_cons_of_ne_nil
    (List.ne_nil_of_length_pos (Nat.lt_of_le_of_lt (Nat.zero_le n) hgt))
  obtain ⟨m, rfl⟩ := Nat.exists_eq_succ_of_ne_zero (Nat.one_le_iff_ne_zero.mp hn)
  simp only [zipLongestChunks]
  rw [Nat.sub_eq_zero_of_le (Nat.le_of_lt hgt)]
  simp

theorem grouper_spec_aux (N : Nat) :
    ∀ l : List α, ∀ n : Nat, l.length ≤ N → l ≠ [] → 1 ≤ n →
    ∃ ps, grouper l n = some ps ∧
      ps ≠ [] ∧
      ps.length = (l.length + n - 1) / n ∧
      ps.flatten = l.map some ∧
      (∀ c ∈ ps.dropLast, c.length = n) := by
  induction N with
  | zero =>
      intro l n hN hl _
      cases l with
      | nil => exact absurd rfl hl
      | cons a l' => simp at hN
  | succ N ih =>
      intro l n hN hl hn
      by_cases hle : l.length ≤ n
      · -- a single piece: stripped of its padding it is the whole input
        have hz := zipLongestChunks_of_le l n hl hn hle
        refine ⟨[l.map some], ?_, by simp, ?_, by simp, by simp⟩
        · unfold grouper
          rw [hz]
          simp [List.getLastD, List.filter_append, filter_isSome_map_some,
            filter_isSome_replicate_none]
        · have h1 : 1 ≤ l.length := List.length_pos.mpr hl
          have hdiv : (l.length + n - 1) / n = 1 :=
            Nat.div_eq_of_lt_le (by omega) (by omega)
          simp [hdiv]
      · have hgt : n < l.length := Nat.lt_of_not_le hle
        have hz := zipLongestChunks_of_gt l n hn hgt
        have hdl : l.drop n ≠ [] := by
          apply List.ne_nil_of_length_pos
          rw [List.length_drop]
          omega
        have hdN : (l.drop n).length ≤ N := by
          rw [List.length_drop]
          omega
        obtain ⟨ps', hps', hne', hlen', hflat', hchunks'⟩ := ih (l.drop n) n hdN hdl hn
        -- the recursive grouper call shares the tail pieces of this one
        obtain ⟨r, rs, hrest⟩ : ∃ r rs, zipLongestChunks (l.drop n) n = r :: rs := by
          cases hc : zipLongestChunks (l.drop n) n with
          | nil =>
              unfold grouper at hps'
              rw [hc] at hps'
              cases hps'
          | cons r rs => exact ⟨r, rs, rfl⟩
        have hps'eq : ps' = (r :: rs).dropLast ++
            [((r :: rs).getLastD []).filter fun x => x.isSome] := by
          unfold grouper at hps'
          rw [hrest] at hps'
          exact (Option.some.inj hps').symm
        refine ⟨(l.take n).map some :: ps', ?_, by simp, ?_, ?_, ?_⟩
        · unfold grouper
          rw [hz, hrest]
          simp only [List.dropLast_cons₂, List.cons_append]
          rw [hps'eq]
          have hlast : (((l.take n).map some) :: r :: rs).getLastD [] =
              (r :: rs).getLastD [] := by
            rw [List.getLastD_eq_getLast?, List.getLastD_eq_getLast?,
              List.getLast?_cons_cons]
          rw [hlast]
        · simp only [List.length_cons, hlen', List.length_drop]
          have hn0 : 0 < n := hn
          have : l.length - n + n - 1 + n = l.length + n - 1 := by omega
          rw [← this, Nat.add_div_right _ hn0]
        · rw [List.flatten_cons, hflat', ← List.map_append, List.take_append_drop]
        · intro c hc
          have hne'' : ps' ≠ [] := hne'
          rw [List.dropLast_cons_of_ne_nil hne''] at hc
          cases hc with
          | head =>
              simp only [List.length_map, List.length_take]
              omega
          | tail _ h => exact hchunks' c h

/-- C1 counterexample — the claim includes N = 0, but on an empty
identifier sequence `grouper` raises `IndexError` (the final-piece
subscript on an empty pieces list), modelled by `none`, instead of
returning the zero chunks the claim requires. -/
theorem grouper_empty_input_errors : grouper ([] : List String) 250 = none := by
  simp [grouper, zipLongestChunks]

/-- C1 amended — for every NONEMPTY identifier sequence (N ≥ 1) and every
chunk size K ≥ 1, `grouper` returns ceil(N/K) chunks whose concatenation
is the input sequence in order (hence the chunks contain no fill values
at all), and every chunk except possibly the last has length exactly K.
For N = 0 the function instead fails with an IndexError. -/
theorem grouper_chunking (l : List α) (n : Nat) (hl : l ≠ []) (hn : 1 ≤ n) :
    ∃ ps, grouper l n = some ps ∧
      ps ≠ [] ∧
      ps.length = (l.length + n - 1) / n ∧
      ps.flatten = l.map some ∧
      (∀ c ∈ ps.dropLast, c.length = n) :=
  grouper_spec_aux l.length l n (Nat.le_refl _) hl hn

/-- Witness for C1's amended theorem on an 8-element list with chunk
size 5 (the docstring's own example), checked by evaluation. -/
theorem grouper_chunking_witness :
    ([0, 1, 2, 3, 4, 5, 6, 7] : List Nat) ≠ [] ∧ 1 ≤ 5 ∧
    ∃ ps, grouper ([0, 1, 2, 3, 4, 5, 6, 7] : List Nat) 5 = some ps ∧
      ps ≠ [] ∧
      ps.length = (([0, 1, 2, 3, 4, 5, 6, 7] : List Nat).length + 5 - 1) / 5 ∧
      ps.flatten = ([0, 1, 2, 3, 4, 5, 6, 7] : List Nat).map some ∧
      (∀ c ∈ ps.dropLast, c.length = 5) :=
  ⟨by decide, by decide, grouper_chunking _ 5 (by decide) (by decide)⟩

/-!
The fetch worker `get_multiple_stations_thread`.  The multiprocessing
queue is modelled as the list of items a run pushes, in order; the two
SOAP endpoints (`getStationMetadata` for a single triplet,
`getStationMetadataMultiple` for a batch) are explicit function
parameters indexed by the attempt number, returning `none` when the call
raises (every exception is caught by the `except Exception` arm, which
emits the error and its traceback and leaves `data = None`).
-/

/-- The payload of a diagnostic message pushed onto the queue. -/
inductive MsgText where
  | excText (attempt : Nat)
  | excTraceback (attempt : Nat)
  | retrying
  | finalFailure (stations : List String)
deriving DecidableEq, Repr

/-- An entry of the results queue: a validated station record, a
`(MESSAGE_CODE, level, text)` diagnostic, or the `QUEUE_DONE` sentinel. -/
inductive QueueItem where
  | record (r : Record)
  | msg (level : Nat) (text : MsgText)
  | done
deriving DecidableEq, Repr

/-- Embeds `someList.remove(station["stationTriplet"])` where `someList`
holds station-triplet strings: `none` models the uncaught exception
(`KeyError` if the key is absent, `ValueError` if the value matches no
element), otherwise the first occurrence is removed. -/
def removeFromPending (pend : List String) (v : Option FieldValue) :
    Option (List String) :=
  match v with
  | some (FieldValue.str s) => if s ∈ pend then some (pend.erase s) else none
  | _ => none

/-- Outcome of the worker's `for station in data` loop: the items pushed
and the surviving pending list, or a crash (the removal raised after the
record had already been pushed). -/
inductive PDResult where
  | finished (out : List QueueItem) (pend : List String)
  | crashed (out : List QueueItem)
deriving DecidableEq, Repr

/-- The worker's per-response loop: validate each returned record; push
each valid record and remove its triplet from the pending list (in that
order — the push precedes the removal); silently skip invalid records. -/
def processData : List Record → List String → PDResult
  | [], pend => PDResult.finished [] pend
  | d :: rest, pend =>
      match validate_station_data d with
      | none => processData rest pend
      | some v =>
          match removeFromPending pend (dictGet v "stationTriplet") with
          | none => PDResult.crashed [QueueItem.record v]
          | some pend' =>
              match processData rest pend' with
              | PDResult.finished out p =>
                  PDResult.finished (QueueItem.record v :: out) p
              | PDResult.crashed out =>
                  PDResult.crashed (QueueItem.record v :: out)

/-- The remote call of one attempt: the single-station endpoint when the
chunk has exactly one identifier, the batched endpoint otherwise. -/
def fetchChunk (svcOne : Nat → String → Option Record)
    (svcMany : Nat → List String → Option (List Record))
    (attempt : Nat) (stations : List String) : Option (List Record) :=
  if stations.length = 1 then
    (svcOne attempt (stations.headD "")).map (fun r => [r])
  else svcMany attempt stations

/-- The messages the `except` arm pushes when the remote call raises. -/
def fetchMsgs (fetched : Option (List Record)) (attempt : Nat) : List QueueItem :=
  match fetched with
  | none => [QueueItem.msg 15 (MsgText.excText attempt),
             QueueItem.msg 15 (MsgText.excTraceback attempt)]
  | some _ => []

/-- The observable behaviour of one worker run: the queue items pushed in
order, the station list passed to the remote service at each attempt
(first the original chunk, then the still-pending subsets), and whether
the run died on an uncaught exception. -/
structure WorkerRun where
  out : List QueueItem
  requests : List (List String)
  crashed : Bool
deriving DecidableEq, Repr

/-- Embeds `get_multiple_stations_thread`: fetch the chunk (emitting the
exception diagnostics on failure), process the returned data, and then —
unless the run crashed — if identifiers are still pending either recurse
on just the pending subset with a decremented budget (after a retrying
diagnostic) or, with the budget exhausted, push one final diagnostic
naming the pending identifiers. -/
def get_multiple_stations_thread (svcOne : Nat → String → Option Record)
    (svcMany : Nat → List String → Option (List Record))
    (attempt : Nat) (stations : List String) (recursiveCall : Nat) : WorkerRun :=
  match recursiveCall,
        processData ((fetchChunk svcOne svcMany attempt stations).getD []) stations with
  | _, PDResult.crashed out =>
      ⟨fetchMsgs (fetchChunk svcOne svcMany attempt stations) attempt ++ out,
       [stations], true⟩
  | _, PDResult.finished out [] =>
      ⟨fetchMsgs (fetchChunk svcOne svcMany attempt stations) attempt ++ out,
       [stations], false⟩
  | r + 1, PDResult.finished out (p :: ps) =>
      let rest := get_multiple_stations_thread svcOne svcMany (attempt + 1) (p :: ps) r
      ⟨fetchMsgs (fetchChunk svcOne svcMany attempt stations) attempt ++ out ++
         QueueItem.msg 15 MsgText.retrying :: rest.out,
       stations :: rest.requests, rest.crashed⟩
  | 0, PDResult.finished out (p :: ps) =>
      ⟨fetchMsgs (fetchChunk svcOne svcMany attempt stations) attempt ++ out ++
         [QueueItem.msg 15 (MsgText.finalFailure (p :: ps))],
       [stations], false⟩

/-- Count of retrying diagnostics in a queue trace. -/
def countRetryMsgs (out : List QueueItem) : Nat :=
  out.countP fun i =>
    match i with
    | QueueItem.msg _ MsgText.retrying => true
    | _ => false

/-- Count of final-failure diagnostics in a queue trace. -/
def countFinalMsgs (out : List QueueItem) : Nat :=
  out.countP fun i =>
    match i with
    | QueueItem.msg _ (MsgText.finalFailure _) => true
    | _ => false

theorem worker_always_fail_spec (svcOne : Nat → String → Option Record)
    (svcMany : Nat → List String → Option (List Record))
    (hOne : ∀ a s, svcOne a s = none) (hMany : ∀ a sts, svcMany a sts = none)
    (r : Nat) :
    ∀ attempt (stations : List String), stations ≠ [] →
    (get_multiple_stations_thread svcOne svcMany attempt stations r).crashed = false ∧
    (get_multiple_stations_thread svcOne svcMany attempt stations r).requests =
      List.replicate (r + 1) stations ∧
    countRetryMsgs (get_multiple_stations_thread svcOne svcMany attempt stations r).out = r ∧
    countFinalMsgs (get_multiple_stations_thread svcOne svcMany attempt stations r).out = 1 ∧
    (get_multiple_stations_thread svcOne svcMany attempt stations r).out.getLast? =
      some (QueueItem.msg 15 (MsgText.finalFailure stations)) := by
  have hfetch : ∀ a sts, fetchChunk svcOne svcMany a sts = none := by
    intro a sts
    unfold fetchChunk
    by_cases h : sts.length = 1 <;> simp [h, hOne, hMany]
  induction r with
  | zero =>
      intro attempt stations hs
      obtain ⟨p, ps, rfl⟩ := List.exists_cons_of_ne_nil hs
      unfold get_multiple_stations_thread
      rw [hfetch]
      simp [processData, fetchMsgs, countRetryMsgs, countFinalMsgs, List.countP_cons]
  | succ r ih =>
      intro attempt stations hs
      obtain ⟨p, ps, rfl⟩ := List.exists_cons_of_ne_nil hs
      obtain ⟨ih1, ih2, ih3, ih4, ih5⟩ := ih (attempt + 1) (p :: ps) (List.cons_ne_nil p ps)
      unfold get_multiple_stations_thread
      rw [hfetch]
      simp only [Option.getD_none, processData, fetchMsgs]
      refine ⟨ih1, ?_, ?_, ?_, ?_⟩
      · rw [List.replicate_succ]
        simp [ih2]
      · simp [countRetryMsgs, List.countP_cons, List.countP_append] at ih3 ⊢
        omega
      · simp [countFinalMsgs, List.countP_cons, List.countP_append] at ih4 ⊢
        omega
      · have hne : (get_multiple_stations_thread svcOne svcMany (attempt + 1)
            (p :: ps) r).out ≠ [] := by
          intro hnil
          rw [hnil] at ih5
          simp at ih5
        rw [List.getLast?_append_of_ne_nil]
        · obtain ⟨b, bs, hbe⟩ := List.exists_cons_of_ne_nil hne
          rw [hbe, List.getLast?_cons_cons, ← hbe]
          exact ih5
        · simp [hne]

/-- C3 — Retry termination: against a remote service whose calls always
fail, a worker on a non-empty chunk with retry budget r performs exactly
r retries — the remote service is asked r + 1 times, each time for the
full original chunk, the recursion bottoming out as the budget reaches
zero — does not crash, and then pushes exactly one final diagnostic,
the last item it emits, naming all originally requested identifiers. -/
theorem worker_retry_termination (svcOne : Nat → String → Option Record)
    (svcMany : Nat → List String → Option (List Record))
    (hOne : ∀ a s, svcOne a s = none) (hMany : ∀ a sts, svcMany a sts = none)
    (stations : List String) (hs : stations ≠ []) (r : Nat) :
    (get_multiple_stations_thread svcOne svcMany 0 stations r).crashed = false ∧
    (get_multiple_stations_thread svcOne svcMany 0 stations r).requests =
      List.replicate (r + 1) stations ∧
    countRetryMsgs (get_multiple_stations_thread svcOne svcMany 0 stations r).out = r ∧
    countFinalMsgs (get_multiple_stations_thread svcOne svcMany 0 stations r).out = 1 ∧
    (get_multiple_stations_thread svcOne svcMany 0 stations r).out.getLast? =
      some (QueueItem.msg 15 (MsgText.finalFailure stations)) :=
  worker_always_fail_spec svcOne svcMany hOne hMany r 0 stations hs

/-- A remote service that always raises, for concrete runs. -/
def failingSvcOne : Nat → String → Option Record := fun _ _ => none

/-- The batched endpoint of the always-failing service. -/
def failingSvcMany : Nat → List String → Option (List Record) := fun _ _ => none

/-- Witness for C3 on a concrete two-station chunk with budget 2. -/
theorem worker_retry_termination_witness :
    (get_multiple_stations_thread failingSvcOne failingSvcMany 0
        ["301:OR:SNTL", "302:OR:SNTL"] 2).crashed = false ∧
    (get_multiple_stations_thread failingSvcOne failingSvcMany 0
        ["301:OR:SNTL", "302:OR:SNTL"] 2).requests =
      List.replicate 3 ["301:OR:SNTL", "302:OR:SNTL"] ∧
    countRetryMsgs (get_multiple_stations_thread failingSvcOne failingSvcMany 0
        ["301:OR:SNTL", "302:OR:SNTL"] 2).out = 2 ∧
    countFinalMsgs (get_multiple_stations_thread failingSvcOne failingSvcMany 0
        ["301:OR:SNTL", "302:OR:SNTL"] 2).out = 1 ∧
    (get_multiple_stations_thread failingSvcOne failingSvcMany 0
        ["301:OR:SNTL", "302:OR:SNTL"] 2).out.getLast? =
      some (QueueItem.msg 15 (MsgText.finalFailure ["301:OR:SNTL", "302:OR:SNTL"])) :=
  worker_retry_termination failingSvcOne failingSvcMany (fun _ _ => rfl)
    (fun _ _ => rfl) _ (by decide) 2

/-!
Emission bookkeeping for the no-duplicate-writes and pending-removal
claims: the station triplets of the records a run pushes, in order.
-/

/-- The stationTriplet values of the records in a queue trace. -/
def emittedTriplets (out : List QueueItem) : List (Option FieldValue) :=
  out.filterMap fun i =>
    match i with
    | QueueItem.record r => some (dictGet r "stationTriplet")
    | _ => none

/-- The string station identifiers of the records in a queue trace
(records whose triplet is not a string contribute nothing). -/
def emittedIds (out : List QueueItem) : List String :=
  out.filterMap fun i =>
    match i with
    | QueueItem.record r =>
        match dictGet r "stationTriplet" with
        | some (FieldValue.str s) => some s
        | _ => none
    | _ => none

@[simp]
theorem emittedIds_nil : emittedIds [] = [] := rfl

@[simp]
theorem emittedTriplets_nil : emittedTriplets [] = [] := rfl

@[simp]
theorem emittedIds_append (a b : List QueueItem) :
    emittedIds (a ++ b) = emittedIds a ++ emittedIds b :=
  List.filterMap_append a b _

@[simp]
theorem emittedTriplets_append (a b : List QueueItem) :
    emittedTriplets (a ++ b) = emittedTriplets a ++ emittedTriplets b :=
  List.filterMap_append a b _

@[simp]
theorem emittedIds_msg (lv : Nat) (t : MsgText) (out : List QueueItem) :
    emittedIds (QueueItem.msg lv t :: out) = emittedIds out := by
  simp [emittedIds, List.filterMap_cons]

@[simp]
theorem emittedTriplets_msg (lv : Nat) (t : MsgText) (out : List QueueItem) :
    emittedTriplets (QueueItem.msg lv t :: out) = emittedTriplets out := by
  simp [emittedTriplets, List.filterMap_cons]

@[simp]
theorem emittedIds_fetchMsgs (x : Option (List Record)) (a : Nat) :
    emittedIds (fetchMsgs x a) = [] := by
  cases x <;> rfl

@[simp]
theorem emittedTriplets_fetchMsgs (x : Option (List Record)) (a : Nat) :
    emittedTriplets (fetchMsgs x a) = [] := by
  cases x <;> rfl

theorem emittedIds_record_str (r : Record) (out : List QueueItem) (s : String)
    (h : dictGet r "stationTriplet" = some (FieldValue.str s)) :
    emittedIds (QueueItem.record r :: out) = s :: emittedIds out := by
  simp [emittedIds, List.filterMap_cons, h]

theorem emittedTriplets_record (r : Record) (out : List QueueItem) :
    emittedTriplets (QueueItem.record r :: out) =
      dictGet r "stationTriplet" :: emittedTriplets out := by
  simp [emittedTriplets, List.filterMap_cons]

theorem removeFromPending_some (pend : List String) (v : Option FieldValue)
    (pend2 : List String) (h : removeFromPending pend v = some pend2) :
    ∃ s, v = some (FieldValue.str s) ∧ s ∈ pend ∧ pend2 = pend.erase s := by
  cases v with
  | none => simp [removeFromPending] at h
  | some fv =>
      cases fv with
      | null => simp [removeFromPending] at h
      | num n => simp [removeFromPending] at h
      | str s =>
          by_cases hmem : s ∈ pend
          · refine ⟨s, rfl, hmem, ?_⟩
            simp only [removeFromPending, if_pos hmem] at h
            exact (Option.some.inj h).symm
          · simp [removeFromPending, hmem] at h

/-- Every record a finished per-response loop pushes has a string
triplet, those triplets together with the surviving pending identifiers
are exactly the initial pending identifiers (as a multiset), and the
surviving pending list is a sublist of the initial one. -/
theorem processData_finished_spec (data : List Record) :
    ∀ (pend : List String) (out : List QueueItem) (pend' : List String),
    processData data pend = PDResult.finished out pend' →
    emittedTriplets out = (emittedIds out).map (fun s => some (FieldValue.str s)) ∧
    (↑(emittedIds out) : Multiset String) + ↑pend' = ↑pend ∧
    pend'.Sublist pend := by
  induction data with
  | nil =>
      intro pend out pend' h
      simp only [processData, PDResult.finished.injEq] at h
      have h1 := h.1.symm
      have h2 := h.2.symm
      subst h1; subst h2
      exact ⟨rfl, by simp, List.Sublist.refl _⟩
  | cons d rest ih =>
      intro pend out pend' h
      cases hv : validate_station_data d with
      | none =>
          simp only [processData, hv] at h
          exact ih pend out pend' h
      | some v =>
          cases hrm : removeFromPending pend (dictGet v "stationTriplet") with
          | none => simp [processData, hv, hrm] at h
          | some pend2 =>
              cases hpd : processData rest pend2 with
              | crashed out2 => simp [processData, hv, hrm, hpd] at h
              | finished out2 p2 =>
                  simp only [processData, hv, hrm, hpd,
                    PDResult.finished.injEq] at h
                  obtain ⟨h1, h2⟩ := h
                  subst h1; subst h2
                  obtain ⟨s, hdv, hmem, rfl⟩ := removeFromPending_some pend _ pend2 hrm
                  obtain ⟨ih1, ih2, ih3⟩ := ih _ out2 _ hpd
                  refine ⟨?_, ?_, ih3.trans (List.erase_sublist s pend)⟩
                  · rw [emittedTriplets_record, emittedIds_record_str _ _ s hdv,
                      List.map_cons, hdv, ih1]
                  · rw [emittedIds_record_str _ _ s hdv, ← Multiset.cons_coe,
                      Multiset.cons_add, ih2, ← Multiset.coe_erase,
                      Multiset.cons_erase (Multiset.mem_coe.mpr hmem)]

/-- The valid-record station identifiers contained in one remote
response, in order. -/
def validIds (data : List Record) : List String :=
  data.filterMap fun d =>
    match validate_station_data d with
    | some v =>
        match dictGet v "stationTriplet" with
        | some (FieldValue.str s) => some s
        | _ => none
    | none => none

/-- A well-behaved remote response for a request of the identifiers
`sts`: every record that passes validation has a string triplet, and
those triplets are pairwise distinct identifiers among the requested
ones. -/
def GoodResponse (sts : List String) (data : List Record) : Prop :=
  (validIds data).Nodup ∧ validIds data ⊆ sts ∧
  ∀ d ∈ data, ∀ v, validate_station_data d = some v →
    ∃ s, dictGet v "stationTriplet" = some (FieldValue.str s)

/-- Under a well-behaved response the per-response loop never crashes:
every removal finds its identifier still pending. -/
theorem processData_finished_of_good (data : List Record) :
    ∀ pend : List String, (validIds data).Nodup → validIds data ⊆ pend →
    (∀ d ∈ data, ∀ v, validate_station_data d = some v →
        ∃ s, dictGet v "stationTriplet" = some (FieldValue.str s)) →
    ∃ out pend', processData data pend = PDResult.finished out pend' := by
  induction data with
  | nil => exact fun pend _ _ _ => ⟨[], pend, rfl⟩
  | cons d rest ih =>
      intro pend hnd hsub hform
      cases hv : validate_station_data d with
      | none =>
          have hids : validIds (d :: rest) = validIds rest := by
            simp [validIds, List.filterMap_cons, hv]
          rw [hids] at hnd hsub
          obtain ⟨out, pend', hpd⟩ :=
            ih pend hnd hsub (fun x hx => hform x (List.mem_cons_of_mem d hx))
          refine ⟨out, pend', ?_⟩
          simp only [processData, hv]
          exact hpd
      | some v =>
          obtain ⟨s, hdv⟩ := hform d (List.mem_cons_self d rest) v hv
          have hids : validIds (d :: rest) = s :: validIds rest := by
            simp [validIds, List.filterMap_cons, hv, hdv]
          rw [hids] at hnd hsub
          have hmem : s ∈ pend := hsub (List.mem_cons_self s _)
          have hsub' : validIds rest ⊆ pend.erase s := by
            intro t ht
            rw [List.mem_erase_of_ne]
            · exact hsub (List.mem_cons_of_mem s ht)
            · intro hts
              exact (List.nodup_cons.mp hnd).1 (hts ▸ ht)
          obtain ⟨out, pend', hpd⟩ := ih (pend.erase s) (List.nodup_cons.mp hnd).2
            hsub' (fun x hx => hform x (List.mem_cons_of_mem d hx))
          refine ⟨QueueItem.record v :: out, pend', ?_⟩
          simp only [processData, hv, hdv, removeFromPending, if_pos hmem, hpd]

/-- A successful fetch of one chunk yields a well-behaved response when
the two endpoints do. -/
theorem fetchChunk_good (svcOne : Nat → String → Option Record)
    (svcMany : Nat → List String → Option (List Record))
    (hOne : ∀ a s rec, svcOne a s = some rec → GoodResponse [s] [rec])
    (hMany : ∀ a sts data, sts.Nodup → svcMany a sts = some data → GoodResponse sts data)
    (a : Nat) (sts : List String) (hnd : sts.Nodup) (data : List Record)
    (h : fetchChunk svcOne svcMany a sts = some data) : GoodResponse sts data := by
  unfold fetchChunk at h
  by_cases hlen : sts.length = 1
  · obtain ⟨s, rfl⟩ := List.length_eq_one.mp hlen
    rw [if_pos hlen] at h
    rw [show ([s].headD "") = s from rfl] at h
    cases hsv : svcOne a s with
    | none => rw [hsv] at h; cases h
    | some rec =>
        rw [hsv] at h
        have hdata : [rec] = data := Option.some.inj h
        exact hdata ▸ hOne a s rec hsv
  · rw [if_neg hlen] at h
    exact hMany a sts data hnd h

theorem worker_good_spec (svcOne : Nat → String → Option Record)
    (svcMany : Nat → List String → Option (List Record))
    (hOne : ∀ a s rec, svcOne a s = some rec → GoodResponse [s] [rec])
    (hMany : ∀ a sts data, sts.Nodup → svcMany a sts = some data → GoodResponse sts data)
    (r : Nat) :
    ∀ attempt (stations : List String), stations.Nodup →
    (get_multiple_stations_thread svcOne svcMany attempt stations r).crashed = false ∧
    (↑(emittedIds (get_multiple_stations_thread svcOne svcMany attempt stations r).out) :
        Multiset String) ≤ ↑stations ∧
    emittedTriplets (get_multiple_stations_thread svcOne svcMany attempt stations r).out =
      (emittedIds (get_multiple_stations_thread svcOne svcMany attempt stations r).out).map
        (fun s => some (FieldValue.str s)) := by
  induction r with
  | zero =>
      intro attempt stations hnd
      cases hfc : fetchChunk svcOne svcMany attempt stations with
      | none =>
          unfold get_multiple_stations_thread
          rw [hfc]
          cases stations with
          | nil => simp [processData]
          | cons p ps => simp [processData]
      | some data =>
          have hgood := fetchChunk_good svcOne svcMany hOne hMany attempt stations hnd data hfc
          obtain ⟨out1, pend1, hpd⟩ := processData_finished_of_good data stations
            hgood.1 hgood.2.1 hgood.2.2
          obtain ⟨hform, hms, hsl⟩ := processData_finished_spec data stations out1 pend1 hpd
          have hle : (↑(emittedIds out1) : Multiset String) ≤ ↑stations := by
            rw [← hms]
            exact Multiset.le_add_right _ _
          unfold get_multiple_stations_thread
          rw [hfc]
          simp only [Option.getD_some, hpd]
          cases pend1 with
          | nil => simpa [fetchMsgs] using ⟨hle, hform⟩
          | cons p ps => simpa [fetchMsgs] using ⟨hle, hform⟩
  | succ r ih =>
      intro attempt stations hnd
      cases hfc : fetchChunk svcOne svcMany attempt stations with
      | none =>
          unfold get_multiple_stations_thread
          rw [hfc]
          cases stations with
          | nil => simp [processData]
          | cons p ps =>
              obtain ⟨ih1, ih2, ih3⟩ := ih (attempt + 1) (p :: ps) hnd
              simp only [Option.getD_none, processData]
              simpa [fetchMsgs] using ⟨ih1, ih2, ih3⟩
      | some data =>
          have hgood := fetchChunk_good svcOne svcMany hOne hMany attempt stations hnd data hfc
          obtain ⟨out1, pend1, hpd⟩ := processData_finished_of_good data stations
            hgood.1 hgood.2.1 hgood.2.2
          obtain ⟨hform, hms, hsl⟩ := processData_finished_spec data stations out1 pend1 hpd
          unfold get_multiple_stations_thread
          rw [hfc]
          simp only [Option.getD_some, hpd]
          cases pend1 with
          | nil =>
              have hle : (↑(emittedIds out1) : Multiset String) ≤ ↑stations := by
                rw [← hms]
                exact Multiset.le_add_right _ _
              simpa [fetchMsgs] using ⟨hle, hform⟩
          | cons p ps =>
              have hnd1 : (p :: ps).Nodup := List.Sublist.nodup hsl hnd
              obtain ⟨ih1, ih2, ih3⟩ := ih (attempt + 1) (p :: ps) hnd1
              refine ⟨by simpa [fetchMsgs] using ih1, ?_, ?_⟩
              · simp only [WorkerRun.out, fetchMsgs, emittedIds_append, emittedIds_msg,
                  emittedIds_nil, List.nil_append]
                have : (↑(emittedIds out1 ++
                    emittedIds (get_multiple_stations_thread svcOne svcMany
                      (attempt + 1) (p :: ps) r).out) : Multiset String) =
                    ↑(emittedIds out1) +
                    ↑(emittedIds (get_multiple_stations_thread svcOne svcMany
                      (attempt + 1) (p :: ps) r).out) :=
                  (Multiset.coe_add _ _).symm
                rw [this, ← hms]
                exact add_le_add_left ih2 _
              · simp only [WorkerRun.out, fetchMsgs, emittedIds_append, emittedIds_msg,
                  emittedTriplets_append, emittedTriplets_msg, emittedIds_nil,
                  emittedTriplets_nil, List.nil_append]
                rw [List.map_append, hform, ih3]

/-- C4 counterexample helper: a schema-valid raw record for station
999:WA:SNTL. -/
def dupStationRecord : Record :=
  [("elevation", FieldValue.num 100), ("latitude", FieldValue.num 45),
   ("longitude", FieldValue.num (-120)),
   ("stationTriplet", FieldValue.str "999:WA:SNTL")]

/-- A batch endpoint that answers every request with the same record
twice. -/
def duplicatingSvcMany : Nat → List String → Option (List Record) :=
  fun _ _ => some [dupStationRecord, dupStationRecord]

/-- C4 counterexample — the claim is false for runs in which a remote
response repeats a record: the worker pushes the record onto the results
channel BEFORE removing its identifier from the pending list, so on this
run two records for identifier 999:WA:SNTL reach the channel (the second
removal then raises and the worker dies). -/
theorem duplicate_response_double_push :
    emittedTriplets (get_multiple_stations_thread failingSvcOne duplicatingSvcMany 0
        ["999:WA:SNTL", "888:WA:SNTL"] 0).out =
      [some (FieldValue.str "999:WA:SNTL"), some (FieldValue.str "999:WA:SNTL")] ∧
    ¬ (emittedTriplets (get_multiple_stations_thread failingSvcOne duplicatingSvcMany 0
        ["999:WA:SNTL", "888:WA:SNTL"] 0).out).Nodup := by
  decide

/-- C4 amended — provided the original chunk has no duplicate identifiers
and every remote response is well behaved (each record that passes
validation carries a distinct string triplet drawn from the requested
identifiers), the worker does not crash and pushes at most one record per
identifier onto the results channel: a retry attempt requests only the
still-pending subset, so already-delivered identifiers are never
re-emitted. -/
theorem worker_no_duplicate_writes (svcOne : Nat → String → Option Record)
    (svcMany : Nat → List String → Option (List Record))
    (hOne : ∀ a s rec, svcOne a s = some rec → GoodResponse [s] [rec])
    (hMany : ∀ a sts data, sts.Nodup → svcMany a sts = some data → GoodResponse sts data)
    (stations : List String) (hnd : stations.Nodup) (r : Nat) :
    (get_multiple_stations_thread svcOne svcMany 0 stations r).crashed = false ∧
    (emittedTriplets
      (get_multiple_stations_thread svcOne svcMany 0 stations r).out).Nodup := by
  obtain ⟨h1, h2, h3⟩ := worker_good_spec svcOne svcMany hOne hMany r 0 stations hnd
  refine ⟨h1, ?_⟩
  rw [h3]
  apply List.Nodup.map
  · intro a b hab
    simpa using hab
  · exact Multiset.coe_nodup.mp (Multiset.nodup_of_le h2 (Multiset.coe_nodup.mpr hnd))

/-- Witness for C4's amended theorem: the always-failing service is
trivially well behaved, and the run emits no records. -/
theorem worker_no_duplicate_writes_witness :
    (get_multiple_stations_thread failingSvcOne failingSvcMany 0
        ["301:OR:SNTL", "302:OR:SNTL"] 1).crashed = false ∧
    (emittedTriplets (get_multiple_stations_thread failingSvcOne failingSvcMany 0
        ["301:OR:SNTL", "302:OR:SNTL"] 1).out).Nodup :=
  worker_no_duplicate_writes failingSvcOne failingSvcMany
    (fun _ _ _ h => nomatch h) (fun _ _ _ _ h => nomatch h) _ (by decide) 1

/-- All-invalid responses leave the pending list untouched and emit
nothing: the per-response loop skips every record. -/
theorem processData_all_invalid :
    ∀ (data : List Record) (pend : List String),
    (∀ d ∈ data, validate_station_data d = none) →
    processData data pend = PDResult.finished [] pend := by
  intro data
  induction data with
  | nil => intro pend _; rfl
  | cons d rest ih =>
      intro pend h
      simp only [processData, h d (List.mem_cons_self d rest)]
      exact ih pend (fun x hx => h x (List.mem_cons_of_mem d hx))

theorem worker_invalid_spec (svcOne : Nat → String → Option Record)
    (svcMany : Nat → List String → Option (List Record))
    (hOne : ∀ a s rec, svcOne a s = some rec → validate_station_data rec = none)
    (hMany : ∀ a sts data, svcMany a sts = some data →
        ∀ d ∈ data, validate_station_data d = none)
    (r : Nat) :
    ∀ attempt (stations : List String), stations ≠ [] →
    (get_multiple_stations_thread svcOne svcMany attempt stations r).crashed = false ∧
    (get_multiple_stations_thread svcOne svcMany attempt stations r).requests =
      List.replicate (r + 1) stations ∧
    emittedTriplets (get_multiple_stations_thread svcOne svcMany attempt stations r).out = [] ∧
    (get_multiple_stations_thread svcOne svcMany attempt stations r).out.getLast? =
      some (QueueItem.msg 15 (MsgText.finalFailure stations)) := by
  have hfetchInv : ∀ a sts data, fetchChunk svcOne svcMany a sts = some data →
      ∀ d ∈ data, validate_station_data d = none := by
    intro a sts data h d hd
    unfold fetchChunk at h
    by_cases hlen : sts.length = 1
    · rw [if_pos hlen] at h
      cases hsv : svcOne a (sts.headD "") with
      | none => rw [hsv] at h; cases h
      | some rec =>
          rw [hsv] at h
          have hdata : [rec] = data := Option.some.inj h
          rw [← hdata, List.mem_singleton] at hd
          subst hd
          exact hOne a _ d hsv
    · rw [if_neg hlen] at h
      exact hMany a sts data h d hd
  have hstep : ∀ a (sts : List String),
      processData ((fetchChunk svcOne svcMany a sts).getD []) sts =
        PDResult.finished [] sts := by
    intro a sts
    cases hfc : fetchChunk svcOne svcMany a sts with
    | none => rfl
    | some data => exact processData_all_invalid data sts (hfetchInv a sts data hfc)
  induction r with
  | zero =>
      intro attempt stations hs
      obtain ⟨p, ps, rfl⟩ := List.exists_cons_of_ne_nil hs
      unfold get_multiple_stations_thread
      rw [hstep]
      cases hfc : fetchChunk svcOne svcMany attempt (p :: ps) <;>
        simp [fetchMsgs]
  | succ r ih =>
      intro attempt stations hs
      obtain ⟨p, ps, rfl⟩ := List.exists_cons_of_ne_nil hs
      obtain ⟨ih1, ih2, ih3, ih4⟩ := ih (attempt + 1) (p :: ps) (List.cons_ne_nil p ps)
      unfold get_multiple_stations_thread
      rw [hstep]
      have hne : (get_multiple_stations_thread svcOne svcMany (attempt + 1)
          (p :: ps) r).out ≠ [] := by
        intro hnil
        rw [hnil] at ih4
        simp at ih4
      refine ⟨ih1, by simp [ih2, List.replicate_succ], by simp [ih3], ?_⟩
      rw [List.getLast?_append_of_ne_nil _ (by simp)]
      obtain ⟨b, bs, hbe⟩ := List.exists_cons_of_ne_nil hne
      rw [hbe, List.getLast?_cons_cons, ← hbe]
      exact ih4

/-- A single-station endpoint that answers every request with a record
holding only the triplet — missing the required fields, so it always
fails validation. -/
def invalidRecordSvcOne : Nat → String → Option Record :=
  fun _ s => some [("stationTriplet", FieldValue.str s)]

/-- C7 counterexample — an identifier whose fetched record fails
validation is NOT dropped from the retry path: on this run the record
for 301:OR:SNTL fails validation at attempt 0, yet the identifier is
requested again in the retry attempt (the second entry of the request
trace). -/
theorem invalid_record_station_is_retried :
    (get_multiple_stations_thread invalidRecordSvcOne failingSvcMany 0
        ["301:OR:SNTL"] 1).requests = [["301:OR:SNTL"], ["301:OR:SNTL"]] ∧
    "301:OR:SNTL" ∈ ((get_multiple_stations_thread invalidRecordSvcOne failingSvcMany 0
        ["301:OR:SNTL"] 1).requests.getD 1 []) := by
  decide

/-- C7 amended — a record that fails validation is silently dropped from
emission (no record and no validation-specific diagnostic is pushed; the
message vocabulary has no such class), but its identifier stays in the
pending list: against a service whose returned records always fail
validation, every one of the r + 1 attempts requests the full original
chunk, nothing is emitted for those identifiers, the run does not crash,
and they are finally named in the single end-of-budget diagnostic. -/
theorem invalid_records_remain_pending (svcOne : Nat → String → Option Record)
    (svcMany : Nat → List String → Option (List Record))
    (hOne : ∀ a s rec, svcOne a s = some rec → validate_station_data rec = none)
    (hMany : ∀ a sts data, svcMany a sts = some data →
        ∀ d ∈ data, validate_station_data d = none)
    (stations : List String) (hs : stations ≠ []) (r : Nat) :
    (get_multiple_stations_thread svcOne svcMany 0 stations r).crashed = false ∧
    (get_multiple_stations_thread svcOne svcMany 0 stations r).requests =
      List.replicate (r + 1) stations ∧
    emittedTriplets (get_multiple_stations_thread svcOne svcMany 0 stations r).out = [] ∧
    (get_multiple_stations_thread svcOne svcMany 0 stations r).out.getLast? =
      some (QueueItem.msg 15 (MsgText.finalFailure stations)) :=
  worker_invalid_spec svcOne svcMany hOne hMany r 0 stations hs

/-- Witness for C7's amended theorem on a concrete one-station chunk
against the invalid-record service. -/
theorem invalid_records_remain_pending_witness :
    (get_multiple_stations_thread invalidRecordSvcOne failingSvcMany 0
        ["301:OR:SNTL"] 1).crashed = false ∧
    (get_multiple_stations_thread invalidRecordSvcOne failingSvcMany 0
        ["301:OR:SNTL"] 1).requests = List.replicate 2 ["301:OR:SNTL"] ∧
    emittedTriplets (get_multiple_stations_thread invalidRecordSvcOne failingSvcMany 0
        ["301:OR:SNTL"] 1).out = [] ∧
    (get_multiple_stations_thread invalidRecordSvcOne failingSvcMany 0
        ["301:OR:SNTL"] 1).out.getLast? =
      some (QueueItem.msg 15 (MsgText.finalFailure ["301:OR:SNTL"])) :=
  invalid_records_remain_pending invalidRecordSvcOne failingSvcMany
    (fun a s rec h => by
      injection h with h2
      subst h2
      rfl)
    (fun _ _ _ h => nomatch h)
    ["301:OR:SNTL"] (by decide) 1

/-!
The consumer loop of `get_network_stations`: it drains the queue until
the `QUEUE_DONE` sentinel, logging and skipping diagnostics, removing
each record's triplet from the coordinator's own `stationIDs` list and
inserting the record (in that order), and finally compares the inserted
count with the directory count.
-/

/-- How an embedded coordinator run can fail. -/
inductive CoordError where
  | uncaughtValueError
  | starvedQueue
  | incompleteNetwork
deriving DecidableEq, Repr

/-- The `while True` consumer loop over the queue contents (in arrival
order): returns the inserted count and the surviving pending list on the
`DONE` sentinel; a failed `stationIDs.remove` is the uncaught exception
`uncaughtValueError`; a queue exhausted with no sentinel would block
forever (`starvedQueue` in this finite model). -/
def drainLoop : List String → Nat → List QueueItem → Except CoordError (Nat × List String)
  | _, _, [] => Except.error CoordError.starvedQueue
  | pend, count, QueueItem.done :: _ => Except.ok (count, pend)
  | pend, count, QueueItem.msg _ _ :: rest => drainLoop pend count rest
  | pend, count, QueueItem.record r :: rest =>
      match removeFromPending pend (dictGet r "stationTriplet") with
      | none => Except.error CoordError.uncaughtValueError
      | some pend' => drainLoop pend' (count + 1) rest

/-- Embeds the tail of `get_network_stations`, after the directory call
returned `stationIDs` (so `numberofstations = stationIDs.length`) and
with `queue` the sequence of items the workers put on the results queue:
drain the queue, then raise the incomplete-network exception if the
inserted count differs from the directory count, else return it. -/
def get_network_stations (stationIDs : List String) (queue : List QueueItem) :
    Except CoordError Nat :=
  match drainLoop stationIDs 0 queue with
  | Except.error e => Except.error e
  | Except.ok (countInserted, _) =>
      if countInserted ≠ stationIDs.length then Except.error CoordError.incompleteNetwork
      else Except.ok countInserted

/-- C2 — Completeness invariant: the coordinator returns normally only
when the inserted-record count equals the directory count; whenever the
drain loop completes with a differing count, the coordinator raises the
fatal incomplete-network error instead of returning success. -/
theorem coordinator_completeness (stationIDs : List String) (queue : List QueueItem) :
    (∀ c, get_network_stations stationIDs queue = Except.ok c → c = stationIDs.length) ∧
    (∀ c pend', drainLoop stationIDs 0 queue = Except.ok (c, pend') →
        c ≠ stationIDs.length →
        get_network_stations stationIDs queue =
          Except.error CoordError.incompleteNetwork) ∧
    (∀ c pend', drainLoop stationIDs 0 queue = Except.ok (c, pend') →
        c = stationIDs.length →
        get_network_stations stationIDs queue = Except.ok c) := by
  refine ⟨?_, ?_, ?_⟩
  · intro c h
    unfold get_network_stations at h
    cases hdr : drainLoop stationIDs 0 queue with
    | error e => simp [hdr] at h
    | ok cp =>
        obtain ⟨c', pend'⟩ := cp
        simp only [hdr] at h
        by_cases hc : c' = stationIDs.length
        · rw [if_neg (by simp [hc])] at h
          exact (Except.ok.inj h) ▸ hc
        · rw [if_pos hc] at h
          simp at h
  · intro c pend' hdr hc
    unfold get_network_stations
    simp [hdr, hc]
  · intro c pend' hdr hc
    unfold get_network_stations
    simp [hdr, hc]

/-- A minimal record carrying the triplet of station 301:OR:SNTL, for
concrete coordinator runs. -/
def sampleRecord301 : Record := [("stationTriplet", FieldValue.str "301:OR:SNTL")]

/-- Witness for C2 on a one-station network whose single record arrives
before the sentinel: the drain counts 1 of 1 and the coordinator returns
normally. -/
theorem coordinator_completeness_witness :
    drainLoop ["301:OR:SNTL"] 0 [QueueItem.record sampleRecord301, QueueItem.done] =
      Except.ok (1, []) ∧
    get_network_stations ["301:OR:SNTL"]
        [QueueItem.record sampleRecord301, QueueItem.done] = Except.ok 1 :=
  ⟨rfl,
   (coordinator_completeness ["301:OR:SNTL"]
      [QueueItem.record sampleRecord301, QueueItem.done]).2.2 1 [] rfl (by decide)⟩

theorem drainLoop_ok_spec :
    ∀ (queue : List QueueItem) (pend : List String) (count c : Nat) (pend' : List String),
    drainLoop pend count queue = Except.ok (c, pend') →
    pend'.Sublist pend ∧ c + pend'.length = count + pend.length := by
  intro queue
  induction queue with
  | nil => intro pend count c pend' h; simp [drainLoop] at h
  | cons item rest ih =>
      intro pend count c pend' h
      cases item with
      | done =>
          simp only [drainLoop, Except.ok.injEq, Prod.mk.injEq] at h
          obtain ⟨h1, h2⟩ := h
          subst h1; subst h2
          exact ⟨List.Sublist.refl _, rfl⟩
      | msg lv t =>
          simp only [drainLoop] at h
          exact ih pend count c pend' h
      | record r =>
          cases hrm : removeFromPending pend (dictGet r "stationTriplet") with
          | none => simp [drainLoop, hrm] at h
          | some pend2 =>
              simp only [drainLoop, hrm] at h
              obtain ⟨s, hdv, hmem, rfl⟩ := removeFromPending_some pend _ pend2 hrm
              obtain ⟨ih1, ih2⟩ := ih _ _ c pend' h
              refine ⟨ih1.trans (List.erase_sublist s pend), ?_⟩
              have hlen : (pend.erase s).length = pend.length - 1 :=
                List.length_erase_of_mem hmem
              have hpos : 0 < pend.length := List.length_pos_of_mem hmem
              omega

theorem worker_uncrashed_spec (svcOne : Nat → String → Option Record)
    (svcMany : Nat → List String → Option (List Record)) (r : Nat) :
    ∀ attempt (stations : List String),
    (get_multiple_stations_thread svcOne svcMany attempt stations r).crashed = false →
    (↑(emittedIds (get_multiple_stations_thread svcOne svcMany attempt stations r).out) :
        Multiset String) ≤ ↑stations := by
  induction r with
  | zero =>
      intro attempt stations hcr
      cases hpd : processData ((fetchChunk svcOne svcMany attempt stations).getD [])
          stations with
      | crashed out =>
          exfalso
          unfold get_multiple_stations_thread at hcr
          rw [hpd] at hcr
          simp at hcr
      | finished out pend1 =>
          obtain ⟨hform, hms, hsl⟩ := processData_finished_spec _ _ _ _ hpd
          have hle : (↑(emittedIds out) : Multiset String) ≤ ↑stations := by
            rw [← hms]
            exact Multiset.le_add_right _ _
          unfold get_multiple_stations_thread
          rw [hpd]
          cases pend1 with
          | nil => simpa using hle
          | cons p ps => simpa using hle
  | succ r ih =>
      intro attempt stations hcr
      cases hpd : processData ((fetchChunk svcOne svcMany attempt stations).getD [])
          stations with
      | crashed out =>
          exfalso
          unfold get_multiple_stations_thread at hcr
          rw [hpd] at hcr
          simp at hcr
      | finished out pend1 =>
          obtain ⟨hform, hms, hsl⟩ := processData_finished_spec _ _ _ _ hpd
          unfold get_multiple_stations_thread
          cases pend1 with
          | nil =>
              rw [hpd]
              have hle : (↑(emittedIds out) : Multiset String) ≤ ↑stations := by
                rw [← hms]
                exact Multiset.le_add_right _ _
              simpa using hle
          | cons p ps =>
              rw [hpd]
              have hcr' : (get_multiple_stations_thread svcOne svcMany (attempt + 1)
                  (p :: ps) r).crashed = false := by
                unfold get_multiple_stations_thread at hcr
                rw [hpd] at hcr
                simpa using hcr
              have ih2 := ih (attempt + 1) (p :: ps) hcr'
              simp only [WorkerRun.out, emittedIds_append, emittedIds_msg,
                emittedIds_fetchMsgs, List.nil_append]
              have hco : (↑(emittedIds out ++
                  emittedIds (get_multiple_stations_thread svcOne svcMany
                    (attempt + 1) (p :: ps) r).out) : Multiset String) =
                  ↑(emittedIds out) +
                  ↑(emittedIds (get_multiple_stations_thread svcOne svcMany
                    (attempt + 1) (p :: ps) r).out) :=
                (Multiset.coe_add _ _).symm
              rw [hco, ← hms]
              exact add_le_add_left ih2 _

/-- A schema-valid record whose triplet 777:ZZ:MSNT belongs to no
requested chunk. -/
def strangerRecord : Record :=
  [("elevation", FieldValue.num 10), ("latitude", FieldValue.num 44),
   ("longitude", FieldValue.num (-118)),
   ("stationTriplet", FieldValue.str "777:ZZ:MSNT")]

/-- A batch endpoint that answers every request with a record for an
identifier that was never requested. -/
def strangerSvcMany : Nat → List String → Option (List Record) :=
  fun _ _ => some [strangerRecord]

/-- C10 — Implicit pending-removal precondition: (i) the consumer loop
terminates normally only if every record it drained removed a distinct
then-present identifier (the surviving pending list is a sublist of the
initial one and the count accounts exactly for the removals); (ii) a
worker run that does not crash emitted at most the multiset of its
originally pending identifiers, each with a string triplet that was
pending at its removal; (iii) on a duplicate record for an
already-delivered identifier the consumer loop aborts with the uncaught
list-removal error instead of dropping or logging it; (iv) a worker
served a record whose identifier was never requested aborts. -/
theorem pending_removal_precondition :
    (∀ (queue : List QueueItem) (pend : List String) (count c : Nat)
        (pend' : List String),
        drainLoop pend count queue = Except.ok (c, pend') →
        pend'.Sublist pend ∧ c + pend'.length = count + pend.length) ∧
    (∀ (svcOne : Nat → String → Option Record)
        (svcMany : Nat → List String → Option (List Record)) (attempt r : Nat)
        (stations : List String),
        (get_multiple_stations_thread svcOne svcMany attempt stations r).crashed = false →
        (↑(emittedIds
            (get_multiple_stations_thread svcOne svcMany attempt stations r).out) :
            Multiset String) ≤ ↑stations) ∧
    drainLoop ["999:WA:SNTL"] 0
      [QueueItem.record dupStationRecord, QueueItem.record dupStationRecord,
       QueueItem.done] = Except.error CoordError.uncaughtValueError ∧
    (get_multiple_stations_thread failingSvcOne strangerSvcMany 0
      ["301:OR:SNTL", "302:OR:SNTL"] 0).crashed = true :=
  ⟨fun queue pend count c pend' h => drainLoop_ok_spec queue pend count c pend' h,
   fun svcOne svcMany attempt r stations h =>
     worker_uncrashed_spec svcOne svcMany r attempt stations h,
   rfl, by decide⟩

/-- Witness for C10 applying its drain conjunct to a concrete successful
drain. -/
theorem pending_removal_precondition_witness :
    ([] : List String).Sublist ["301:OR:SNTL"] ∧
    1 + ([] : List String).length = 0 + ["301:OR:SNTL"].length :=
  pending_removal_precondition.1 [QueueItem.record sampleRecord301, QueueItem.done]
    ["301:OR:SNTL"] 0 1 [] rfl

/-!
The launch loop of `get_stations`, as a transition system.  The program
iterates over the chunks: it starts a worker process for the next chunk
unconditionally, appends it to `processes`, and then spins in
`while len(processes) == WORKER_PROCESSES`, removing processes that are
no longer alive, until the tracked count is below the cap; after the
last chunk it joins the remaining processes.  The environment may let
any running process finish at any time.
-/

/-- Control location in `get_stations`: about to start the next worker,
spinning in the cap-wait loop, or joining after the last launch. -/
inductive PoolPhase where
  | launching
  | capWait
  | joining
deriving DecidableEq, Repr

/-- The launch loop's state: chunks not yet launched, the `processes`
list (an entry is `true` while that process is alive), and the control
location. -/
structure PoolState where
  remaining : List (List (Option String))
  procs : List Bool
  phase : PoolPhase
deriving DecidableEq, Repr

/-- One step of the launch loop of `get_stations` (program steps) or of
its environment (a worker process finishing). -/
inductive GetStationsStep (cap : Nat) : PoolState → PoolState → Prop where
  | start (c : List (Option String)) (rest : List (List (Option String)))
      (ps : List Bool) :
      GetStationsStep cap ⟨c :: rest, ps, PoolPhase.launching⟩
        ⟨rest, ps ++ [true], PoolPhase.capWait⟩
  | noChunks (ps : List Bool) :
      GetStationsStep cap ⟨[], ps, PoolPhase.launching⟩ ⟨[], ps, PoolPhase.joining⟩
  | waitExitNext (c : List (Option String)) (rest : List (List (Option String)))
      (ps : List Bool) (h : ps.length ≠ cap) :
      GetStationsStep cap ⟨c :: rest, ps, PoolPhase.capWait⟩
        ⟨c :: rest, ps, PoolPhase.launching⟩
  | waitExitDone (ps : List Bool) (h : ps.length ≠ cap) :
      GetStationsStep cap ⟨[], ps, PoolPhase.capWait⟩ ⟨[], ps, PoolPhase.joining⟩
  | prune (rem : List (List (Option String))) (l1 l2 : List Bool)
      (h : (l1 ++ false :: l2).length = cap) :
      GetStationsStep cap ⟨rem, l1 ++ false :: l2, PoolPhase.capWait⟩
        ⟨rem, l1 ++ l2, PoolPhase.capWait⟩
  | die (rem : List (List (Option String))) (l1 l2 : List Bool) (ph : PoolPhase) :
      GetStationsStep cap ⟨rem, l1 ++ true :: l2, ph⟩ ⟨rem, l1 ++ false :: l2, ph⟩

/-- The states the launch loop can reach from its entry (all chunks
pending, no processes, about to run the for loop). -/
inductive GetStationsReach (cap : Nat) (chunks : List (List (Option String))) :
    PoolState → Prop where
  | init : GetStationsReach cap chunks ⟨chunks, [], PoolPhase.launching⟩
  | step {s s' : PoolState} : GetStationsReach cap chunks s →
      GetStationsStep cap s s' → GetStationsReach cap chunks s'

theorem getStations_pool_invariant (cap : Nat)
    (chunks : List (List (Option String))) (hcap : 1 ≤ cap) :
    ∀ s, GetStationsReach cap chunks s →
    s.procs.length ≤ cap ∧ (s.phase = PoolPhase.launching → s.procs.length < cap) := by
  intro s h
  induction h with
  | init => exact ⟨by simp, fun _ => by simpa using hcap⟩
  | step hreach hstep ih =>
      obtain ⟨ih1, ih2⟩ := ih
      cases hstep with
      | start c rest ps =>
          have hlt : ps.length < cap := ih2 rfl
          refine ⟨?_, fun hph => by simp at hph⟩
          show (ps ++ [true]).length ≤ cap
          simp only [List.length_append, List.length_cons, List.length_nil]
          omega
      | noChunks ps =>
          have h1 : ps.length ≤ cap := ih1
          exact ⟨h1, fun hph => by simp at hph⟩
      | waitExitNext c rest ps h =>
          have h1 : ps.length ≤ cap := ih1
          refine ⟨h1, fun _ => ?_⟩
          show ps.length < cap
          omega
      | waitExitDone ps h =>
          have h1 : ps.length ≤ cap := ih1
          exact ⟨h1, fun hph => by simp at hph⟩
      | prune rem l1 l2 h =>
          have h1 : (l1 ++ false :: l2).length ≤ cap := ih1
          refine ⟨?_, fun hph => by simp at hph⟩
          show (l1 ++ l2).length ≤ cap
          simp only [List.length_append, List.length_cons] at h1 ⊢
          omega
      | die rem l1 l2 ph =>
          have h1 : (l1 ++ true :: l2).length ≤ cap := ih1
          have h2 : ph = PoolPhase.launching → (l1 ++ true :: l2).length < cap := ih2
          refine ⟨?_, fun hph => ?_⟩
          · show (l1 ++ false :: l2).length ≤ cap
            simpa using h1
          · show (l1 ++ false :: l2).length < cap
            have h3 := h2 hph
            simpa using h3

/-- C9 — Concurrency cap: for every cap of at least one, in every
reachable state of the launch loop the number of live worker processes
never exceeds the cap — a new worker is started only from the launching
location, which is entered only when the tracked process count is below
the cap. -/
theorem concurrency_cap (cap : Nat) (chunks : List (List (Option String)))
    (hcap : 1 ≤ cap) (s : PoolState) (h : GetStationsReach cap chunks s) :
    s.procs.count true ≤ cap :=
  le_trans (List.count_le_length true s.procs)
    (getStations_pool_invariant cap chunks hcap s h).1

/-- Witness for C9: a concrete reachable state (one worker launched from
a one-chunk list, cap 1) has at most cap live processes. -/
theorem concurrency_cap_witness :
    (PoolState.mk [] [true] PoolPhase.capWait).procs.count true ≤ 1 :=
  concurrency_cap 1 [[some "301:OR:SNTL"]] (by decide) _
    (GetStationsReach.step GetStationsReach.init
      (GetStationsStep.start [some "301:OR:SNTL"] [] []))

end AWDB
